import Mathlib

/-!
# Verification of the leopard sprite runtime core (`src/Sprite.js`)

This file is a shallow embedding, in Lean 4, of the parts of `src/Sprite.js`
that the frozen claims are about, together with proofs (or refutations) of
those claims.

Modelling conventions:
* JavaScript numbers are modelled as `ℚ` for the exact-arithmetic helpers
  (`normalizeDeg`, `wrapClamp`, `glide` interpolation) and as `ℝ` where the
  source uses trigonometric functions (`move`).
* The 32-bit JavaScript bitwise operators used on the effect bitmask are
  modelled exactly on `ℕ` (the bitmask is provably always a value whose bits
  all lie below the effect count, so the int32 embedding is faithful).
* JavaScript object/field mutation becomes explicit state passing: an
  operation on a sprite is a function from the world (an indexed family of
  entities) to a new world.
* `undefined` results of property reads become `Option.none`; the source
  code of `Sprite.js` defines no exception type and never throws.
-/

namespace Leopard

/-- Modelled from the spec: the effect-name list imported from
`renderer/effectInfo.js`, which is outside `src/`.  The spec states the
supported set is "fixed at process start, not dynamic", each name "bound to
one bit position"; the standard Scratch effect set (7 names, in bit order)
is used.  Only fixedness, distinctness and the bit positions matter to the
claims. -/
def effectNames : List String :=
  ["color", "fisheye", "whirl", "pixelate", "mosaic", "brightness", "ghost"]

/-- Number of registered effects (`effectNames.length`). -/
def numEffects : Nat := effectNames.length

/-- JS `m & ~(1 << i)` on an int32-valued nonnegative bitmask, embedded in
`ℕ`: `~(1 << i)` (int32) has exactly the bits `{j < 32, j ≠ i}` set, so for
a bitmask below `2^31` the operation clears bit `i`. -/
def jsClearBit (m i : Nat) : Nat := m &&& ((2 ^ 32 - 1) ^^^ (1 <<< i))

/-- JS `m | (1 << i)` on a nonnegative int32 bitmask, embedded in `ℕ`. -/
def jsSetBit (m i : Nat) : Nat := m ||| (1 <<< i)

/-- Shallow embedding of `_EffectMap` (`src/Sprite.js` lines 9–52).
`effectValues` is the `_effectValues` object (indexed in `effectNames`
order), `bitmask` is `_bitmask`, and `extra` models ordinary JavaScript
own-properties created by assigning to a name that has no registered
accessor (latest assignment first). -/
structure EffectMap where
  effectValues : List Int
  bitmask : Nat
  extra : List (String × Int)
deriving DecidableEq

namespace EffectMap

/-- The `_EffectMap` constructor: every registered value `0`, bitmask `0`. -/
def init : EffectMap :=
  { effectValues := List.replicate numEffects 0, bitmask := 0, extra := [] }

/-- The registered accessor setter for the effect at bit position `i`
(`src/Sprite.js` lines 23–33): store the value and update the bitmask in
the same operation. -/
def setIdx (m : EffectMap) (i : Nat) (v : Int) : EffectMap :=
  { m with
    effectValues := m.effectValues.set i v
    bitmask := if v = 0 then jsClearBit m.bitmask i else jsSetBit m.bitmask i }

/-- The registered accessor getter for the effect at bit position `i`
(`src/Sprite.js` lines 19–21). -/
def getIdx (m : EffectMap) (i : Nat) : Int := m.effectValues.getD i 0

/-- Property assignment `m[name] = v` on an `_EffectMap` instance: a
registered name goes through its accessor setter; any other name becomes an
ordinary own-property (JavaScript raises no error here). -/
def setName (m : EffectMap) (name : String) (v : Int) : EffectMap :=
  match effectNames.findIdx? (fun s => s == name) with
  | some i => m.setIdx i v
  | none => { m with extra := (name, v) :: m.extra }

/-- Property read `m[name]` on an `_EffectMap` instance: a registered name
goes through its accessor getter; any other name reads an ordinary
own-property, `none` standing for JavaScript `undefined`. -/
def getName (m : EffectMap) (name : String) : Option Int :=
  match effectNames.findIdx? (fun s => s == name) with
  | some i => some (m.getIdx i)
  | none => (m.extra.find? (fun p => p.1 == name)).map (·.2)

/-- `_EffectMap.clear` (`src/Sprite.js` lines 46–51): zero every key of
`_effectValues` directly and reset the bitmask. -/
def clear (m : EffectMap) : EffectMap :=
  { m with effectValues := m.effectValues.map (fun _ => 0), bitmask := 0 }

/-- `_EffectMap._clone` (`src/Sprite.js` lines 38–44): build a fresh map and
assign every registered value through the accessor setters. -/
def clone (m : EffectMap) : EffectMap :=
  (List.range numEffects).foldl (fun acc i => acc.setIdx i (m.getIdx i)) init

end EffectMap

/-- The effect-map consistency invariant: the value table has one slot per
registered effect, the bitmask has no bits at or beyond `numEffects`, and
bit `j` is set exactly when the `j`-th registered value is non-zero
(the "bitmask identity" of the spec). -/
def EffInv (m : EffectMap) : Prop :=
  m.effectValues.length = numEffects ∧
  m.bitmask < 2 ^ numEffects ∧
  ∀ j < numEffects, (m.bitmask.testBit j ↔ m.effectValues.getD j 0 ≠ 0)

instance (m : EffectMap) : Decidable (EffInv m) := by
  unfold EffInv; infer_instance

/-- The states an `_EffectMap` can reach through its public interface:
construction, property assignment (any name), `clear`, and `_clone`. -/
inductive Reachable : EffectMap → Prop
  | init : Reachable EffectMap.init
  | set {m} (name : String) (v : Int) : Reachable m → Reachable (m.setName name v)
  | clear {m} : Reachable m → Reachable m.clear
  | clone {m} : Reachable m → Reachable m.clone

/-! ## Numeric helpers of `SpriteBase` (`src/Sprite.js` lines 212–228)

JavaScript's `%` operator is a remainder whose sign follows the dividend:
`a % b = a - b * trunc(a / b)`.  JS numbers are modelled as `ℚ` here. -/

/-- Truncation toward zero, as JS `trunc` (the rounding used by `%`). -/
def jsTrunc (q : ℚ) : ℤ := if q < 0 then ⌈q⌉ else ⌊q⌋

/-- The JavaScript `%` (remainder) operator on finite numbers. -/
def jsRem (a b : ℚ) : ℚ := a - b * jsTrunc (a / b)

/-- `SpriteBase.normalizeDeg` (`src/Sprite.js` line 217):
`((((deg + 180) % 360) + 360) % 360) - 180`. -/
def normalizeDeg (deg : ℚ) : ℚ := jsRem (jsRem (deg + 180) 360 + 360) 360 - 180

/-- `SpriteBase.wrapClamp` (`src/Sprite.js` lines 225–228):
`n - Math.floor((n - min) / range) * range` with `range = max - min + 1`. -/
def wrapClamp (n min max : ℚ) : ℚ :=
  n - ⌊(n - min) / (max - min + 1)⌋ * (max - min + 1)

/-! ## The sprite state and its setters

Only the fields the claims are about are carried; positions/angles are `ℚ`
at this level. -/

/-- Modelled from the spec: the external `Color` value type (`Color.js` is
outside `src/`); an opaque RGB triple, only its identity matters here. -/
structure ColorV where
  r : ℚ
  g : ℚ
  b : ℚ
deriving DecidableEq

/-- A JavaScript value as far as the `penColor` setter and `instanceof
Color` can distinguish one: a `Color` instance or some non-`Color` value. -/
inductive JsValue where
  | color (c : ColorV)
  | num (q : ℚ)
  | str (s : String)
deriving DecidableEq

/-- The sprite fields the claims touch (`Sprite` constructor,
`src/Sprite.js` lines 444–481). -/
structure SpriteState where
  x : ℚ
  y : ℚ
  direction : ℚ
  costumes : List String
  costumeNumber : ℚ
  penDown : Bool
  penSize : ℚ
  penColor : ColorV
deriving DecidableEq

/-- The `direction` setter (`src/Sprite.js` lines 549–551):
`this._direction = this.normalizeDeg(dir)`. -/
def setDirection (s : SpriteState) (dir : ℚ) : SpriteState :=
  { s with direction := normalizeDeg dir }

/-- The `costumeNumber` setter (`src/Sprite.js` lines 98–101):
`this._costumeNumber = this.wrapClamp(number, 1, this.costumes.length)`
(`fireBackdropChanged` is absent on sprites). -/
def setCostumeNumber (s : SpriteState) (number : ℚ) : SpriteState :=
  { s with costumeNumber := wrapClamp number 1 (s.costumes.length : ℚ) }

/-- A concrete sprite (five costumes) used for concrete evaluations. -/
def sampleSprite : SpriteState :=
  { x := 0, y := 0, direction := 90, costumes := ["a", "b", "c", "d", "e"],
    costumeNumber := 1, penDown := false, penSize := 1, penColor := ⟨0, 0, 255⟩ }

/-- The `penColor` setter (`src/Sprite.js` lines 683–691): a `Color`
instance is stored; anything else leaves the stored color unchanged and
appends a `console.error` message (the returned list models the console;
nothing is thrown). -/
def setPenColor (s : SpriteState) (v : JsValue) : SpriteState × List String :=
  match v with
  | .color c => ({ s with penColor := c }, [])
  | _ => (s, ["not a valid penColor. Try using the Color class!"])

/-! ## `move` (`src/Sprite.js` lines 585–592) over `ℝ`

`move` uses `Math.cos`/`Math.sin`, so this part of the embedding lives in
`ℝ`.  Scratch direction `90` is "right" (`scratchToDeg(90) = 0`). -/

/-- `SpriteBase.degToRad` (`src/Sprite.js` lines 173–175). -/
noncomputable def degToRad (deg : ℝ) : ℝ := deg * Real.pi / 180

/-- `SpriteBase.scratchToDeg` (`src/Sprite.js` lines 185–187). -/
def scratchToDeg (scratchDir : ℝ) : ℝ := -scratchDir + 90

/-- `SpriteBase.scratchToRad` (`src/Sprite.js` lines 193–195). -/
noncomputable def scratchToRad (scratchDir : ℝ) : ℝ := degToRad (scratchToDeg scratchDir)

/-- Position part of a sprite for the `move` embedding. -/
structure SpriteR where
  x : ℝ
  y : ℝ
  direction : ℝ

/-- `Sprite.goto` (`src/Sprite.js` lines 553–567), position part: early
return when the target equals the current position (the skipped pen line is
drawn by the external renderer), otherwise store the new coordinates. -/
noncomputable def gotoR (s : SpriteR) (x y : ℝ) : SpriteR :=
  if x = s.x ∧ y = s.y then s else { s with x := x, y := y }

/-- `Sprite.move` (`src/Sprite.js` lines 585–592). -/
noncomputable def move (s : SpriteR) (dist : ℝ) : SpriteR :=
  gotoR s (s.x + dist * Real.cos (scratchToRad s.direction))
    (s.y + dist * Real.sin (scratchToRad s.direction))

/-! ## `glide` (`src/Sprite.js` lines 594–607)

The generator is embedded as a function of the timestamps at which the
scheduler resumes it: `t0` is the `new Date()` captured at the first
execution, and the `k`-th element of `ticks` is the value of `new Date()`
at resumption `k` (1-based, in milliseconds).  A `do { … yield; } while (t < 1)`
body means every resumption with the previously computed `t < 1` recomputes
`t = (now - startTime) / (seconds * 1000)` (unclamped) and moves, and the
generator only returns `done` on the resumption *after* the one whose
computed `t` reached `1`. -/

/-- The local `interpolate` arrow function of `glide`. -/
def interpolate (a b t : ℚ) : ℚ := a + (b - a) * t

/-- Result of running a `glide` generator against a list of resumption
timestamps: final sprite position and, if the generator returned `done`
within the list, the 1-based resumption index at which it did. -/
structure GlideOutcome where
  pos : ℚ × ℚ
  doneAt : Option Nat
deriving DecidableEq

/-- One resumption after another of the `glide` generator body.  `lastT` is
the `t` computed by the previous resumption (`0` before the first, so the
`do`-`while` body always runs once), `pos` the sprite position, `k` the
index of the next resumption. -/
def glideSteps (sx sy x y denom t0 : ℚ) (pos : ℚ × ℚ) (lastT : ℚ) (k : Nat) :
    List ℚ → GlideOutcome
  | [] => ⟨pos, none⟩
  | τ :: rest =>
    if lastT < 1 then
      glideSteps sx sy x y denom t0
        (interpolate sx x ((τ - t0) / denom), interpolate sy y ((τ - t0) / denom))
        ((τ - t0) / denom) (k + 1) rest
    else ⟨pos, some k⟩

/-- `Sprite.glide(seconds, x, y)` started at position `(sx, sy)` at time
`t0`, resumed at the times in `ticks`. -/
def glide (seconds x y sx sy t0 : ℚ) (ticks : List ℚ) : GlideOutcome :=
  glideSteps sx sy x y (seconds * 1000) t0 (sx, sy) 0 1 ticks

/-! ## Entity lifecycle: `createClone` / `deleteThisClone`
(`src/Sprite.js` lines 483–539)

JavaScript object references become indices into a world-wide entity list
(a clone is appended, so a parent's index is always below its clones'). -/

/-- Modelled from the spec: a trigger descriptor (`Trigger.js` is outside
`src/`) is "(kind, options, script-reference)"; only the kind matters to
the claims, and `matches(CLONE_START, {}, clone)` holds iff the kind is
`CLONE_START`. -/
structure Trig where
  kind : String
deriving DecidableEq

/-- An entry of `project.runningTriggers`: a `{ trigger, target }` pair,
the target being an entity index. -/
structure Task where
  trigger : Trig
  target : Nat
deriving DecidableEq

/-- Modelled from the spec: the external audio `EffectChain` (`Sound.js` is
outside `src/`) as an opaque derivation tree — `base owner` is the chain
built in the `SpriteBase` constructor, `cloneOf c` is the result of
`c.clone(...)`. -/
inductive EffectChainT where
  | base (owner : Nat)
  | cloneOf (src : EffectChainT)
deriving DecidableEq

/-- The entity fields the lifecycle claims touch. -/
structure Entity where
  parent : Option Nat
  clones : List Nat
  chain : EffectChainT
  effects : EffectMap
  vars : List (String × ℚ)
  triggers : List Trig
deriving DecidableEq

/-- The world: all entities (an index is a JS object reference) and the
project's `runningTriggers` list. -/
structure World where
  entities : List Entity
  runningTriggers : List Task
deriving DecidableEq

/-- `entity.parent`, read through an index. -/
def parentOf (w : World) (i : Nat) : Option Nat :=
  match w.entities[i]? with
  | some e => e.parent
  | none => none

/-- The `while (original.parent) original = original.parent;` walk of
`createClone` (`src/Sprite.js` lines 507–510), with explicit fuel. -/
def rootFrom (w : World) : Nat → Nat → Nat
  | 0, i => i
  | fuel + 1, i =>
    match parentOf w i with
    | none => i
    | some p => rootFrom w fuel p

/-- The top-most ancestor of entity `i` (fuel `i + 1` suffices in a
well-formed world, where parents precede their clones). -/
def rootOf (w : World) (i : Nat) : Nat := rootFrom w (i + 1) i

/-- Well-formedness: every parent reference points strictly below the
entity itself (clones are appended after their parents exist). -/
def wfParents (w : World) : Bool :=
  (List.range w.entities.length).all fun i =>
    match w.entities[i]? with
    | some e =>
      match e.parent with
      | some p => decide (p < i)
      | none => true
    | none => true

/-- Update the entity at index `i` (mutation of a JS object reference). -/
def modifyEntity (l : List Entity) (i : Nat) (f : Entity → Entity) : List Entity :=
  match l[i]? with
  | some e => l.set i (f e)
  | none => l

/-- `Sprite.createClone` (`src/Sprite.js` lines 483–529): copy the state,
give the copy fresh triggers and variables, clone the *immediate* entity's
effect map but the *root* ancestor's effect chain, attach the copy to
`this.clones`, and schedule (not run) the copy's `CLONE_START` triggers
(the `_startTriggers` registration is modelled from the spec: new tasks are
"scheduled to start (not run) in the current dispatch pass"). -/
def createClone (w : World) (i : Nat) : World :=
  match w.entities[i]? with
  | none => w
  | some orig =>
    let n := w.entities.length
    let rootChain :=
      match w.entities[rootOf w i]? with
      | some r => r.chain
      | none => orig.chain
    let clone : Entity :=
      { parent := some i
        clones := []
        chain := .cloneOf rootChain
        effects := orig.effects.clone
        vars := orig.vars
        triggers := orig.triggers }
    let newTasks := (orig.triggers.filter fun t => t.kind == "CLONE_START").map
      fun t => ({ trigger := t, target := n } : Task)
    { entities :=
        (modifyEntity w.entities i fun e => { e with clones := e.clones ++ [n] }) ++ [clone]
      runningTriggers := w.runningTriggers ++ newTasks }

/-- `Sprite.deleteThisClone` (`src/Sprite.js` lines 531–539): early return
without a parent; otherwise drop this entity from `parent.clones` and drop
every running task whose target is this entity. -/
def deleteThisClone (w : World) (i : Nat) : World :=
  match w.entities[i]? with
  | none => w
  | some e =>
    match e.parent with
    | none => w
    | some p =>
      { entities := modifyEntity w.entities p fun pe =>
          { pe with clones := pe.clones.filter fun c => c != i }
        runningTriggers := w.runningTriggers.filter fun t => t.target != i }

/-- Effect assignment `entity.effects[name] = v` on the entity at `eid`. -/
def setEffectOf (w : World) (eid : Nat) (name : String) (v : Int) : World :=
  { w with entities := modifyEntity w.entities eid fun e =>
      { e with effects := e.effects.setName name v } }

/-- Variable assignment `entity.vars[name] = v` on the entity at `eid`. -/
def setVarOf (w : World) (eid : Nat) (name : String) (v : ℚ) : World :=
  { w with entities := modifyEntity w.entities eid fun e =>
      { e with vars := (name, v) :: e.vars.filter fun p => p.1 != name } }

/-- `j` is reachable from `i` by following `parent` links. -/
inductive Reaches (w : World) : Nat → Nat → Prop
  | refl (i : Nat) : Reaches w i i
  | step {i p j : Nat} : parentOf w i = some p → Reaches w p j → Reaches w i j

/-- A concrete original sprite owning a clone chain, for witnesses. -/
def sampleE0 : Entity :=
  { parent := none, clones := [1], chain := .base 0, effects := EffectMap.init,
    vars := [("score", 0)], triggers := [⟨"CLONE_START"⟩] }

/-- First-generation clone of `sampleE0`. -/
def sampleE1 : Entity :=
  { parent := some 0, clones := [2], chain := .cloneOf (.base 0),
    effects := EffectMap.init, vars := [("score", 0)], triggers := [⟨"CLONE_START"⟩] }

/-- Second-generation clone (clone of a clone). -/
def sampleE2 : Entity :=
  { parent := some 1, clones := [], chain := .cloneOf (.base 0),
    effects := EffectMap.init, vars := [("score", 0)], triggers := [⟨"CLONE_START"⟩] }

/-- A concrete world with a three-deep ownership chain and two running
tasks, one targeting the deepest clone. -/
def sampleWorld : World :=
  { entities := [sampleE0, sampleE1, sampleE2],
    runningTriggers := [⟨⟨"BROADCAST"⟩, 2⟩, ⟨⟨"GREEN_FLAG"⟩, 0⟩] }

theorem numEffects_lt_32 : numEffects < 32 := by decide

/-- Bit-level behaviour of the JS `m & ~(1 << i)` clearing step: for a
bitmask below `2^32` it clears exactly bit `i`. -/
theorem testBit_jsClearBit {m : Nat} (i j : Nat) (hi : i < 32) (hm : m < 2 ^ 32) :
    (jsClearBit m i).testBit j = (m.testBit j && !(decide (j = i))) := by
  unfold jsClearBit
  rw [Nat.testBit_land, Nat.testBit_xor, Nat.one_shiftLeft,
    Nat.testBit_two_pow_sub_one, Nat.testBit_two_pow]
  by_cases hj : j < 32
  · by_cases hij : j = i
    · subst hij; simp [hj, hi]
    · have hij' : ¬i = j := fun e => hij e.symm
      simp [hij, hij', hj]
  · have : m.testBit j = false :=
      Nat.testBit_lt_two_pow (Nat.lt_of_lt_of_le hm (Nat.pow_le_pow_right (by omega) (by omega)))
    simp [this]

/-- Bit-level behaviour of the JS `m | (1 << i)` setting step. -/
theorem testBit_jsSetBit (m i j : Nat) :
    (jsSetBit m i).testBit j = (m.testBit j || decide (j = i)) := by
  unfold jsSetBit
  rw [Nat.testBit_lor, Nat.one_shiftLeft, Nat.testBit_two_pow]
  by_cases hij : i = j <;> simp [hij, eq_comm]

theorem EffInv.bitmask_testBit_high {m : EffectMap} (h : EffInv m) {j : Nat}
    (hj : numEffects ≤ j) : m.bitmask.testBit j = false :=
  Nat.testBit_lt_two_pow
    (Nat.lt_of_lt_of_le h.2.1 (Nat.pow_le_pow_right (by omega) hj))

theorem EffInv.bitmask_lt {m : EffectMap} (h : EffInv m) : m.bitmask < 2 ^ 32 :=
  Nat.lt_of_lt_of_le h.2.1 (Nat.pow_le_pow_right (by omega) (Nat.le_of_lt numEffects_lt_32))

/-- The accessor setter updates exactly bit `i` of the bitmask: a zero value
clears it, a non-zero value sets it, and no other bit changes. -/
theorem setIdx_testBit {m : EffectMap} (h : EffInv m) {i : Nat} (hi : i < numEffects)
    (v : Int) (j : Nat) :
    (m.setIdx i v).bitmask.testBit j =
      (if j = i then decide (v ≠ 0) else m.bitmask.testBit j) := by
  unfold EffectMap.setIdx
  by_cases hv : v = 0
  · rw [if_pos hv, testBit_jsClearBit i j (Nat.lt_trans hi numEffects_lt_32) h.bitmask_lt]
    by_cases hij : j = i <;> simp [hij, hv]
  · rw [if_neg hv, testBit_jsSetBit]
    by_cases hij : j = i
    · simp [hij, hv]
    · simp [hij]

/-- The accessor setter preserves the bitmask-identity invariant. -/
theorem EffInv.setIdx {m : EffectMap} (h : EffInv m) {i : Nat} (hi : i < numEffects)
    (v : Int) : EffInv (m.setIdx i v) := by
  refine ⟨?_, ?_, ?_⟩
  · simpa [EffectMap.setIdx] using h.1
  · apply Nat.lt_pow_two_of_testBit
    intro j hj
    rw [setIdx_testBit h hi v j, if_neg (by omega), h.bitmask_testBit_high hj]
  · intro j hj
    have hval : (m.setIdx i v).effectValues = m.effectValues.set i v := rfl
    have hbit := setIdx_testBit h hi v j
    rw [hval, hbit]
    by_cases hij : j = i
    · subst hij
      have hlen : j < m.effectValues.length := h.1 ▸ hj
      rw [List.getD_eq_getElem?_getD, List.getElem?_set_self hlen]
      simp
    · rw [List.getD_eq_getElem?_getD, List.getElem?_set_ne (fun e => hij e.symm),
        ← List.getD_eq_getElem?_getD, if_neg hij]
      exact h.2.2 j hj

/-- Property assignment preserves the invariant: a registered name routes
through the accessor setter, an unregistered one only touches `extra`. -/
theorem EffInv.setName {m : EffectMap} (h : EffInv m) (name : String) (v : Int) :
    EffInv (m.setName name v) := by
  unfold EffectMap.setName
  cases hf : effectNames.findIdx? (fun s => s == name) with
  | none => exact h
  | some i =>
    have hi : i < numEffects :=
      (List.findIdx?_eq_some_iff_findIdx_eq.mp hf).1
    exact h.setIdx hi v

theorem EffInv.clear {m : EffectMap} (h : EffInv m) : EffInv m.clear := by
  refine ⟨by simpa [EffectMap.clear] using h.1, by simp [EffectMap.clear, Nat.pos_pow_of_pos],
    fun j hj => ?_⟩
  have : (m.effectValues.map (fun _ => (0 : Int))).getD j 0 = 0 := by
    rw [List.getD_eq_getElem?_getD, List.getElem?_map]
    cases m.effectValues[j]? <;> simp
  simp [EffectMap.clear, this]

theorem effInv_init : EffInv EffectMap.init := by decide

/-- The partial fold inside `_clone`, after copying the first `k` registered
values: it satisfies the invariant and holds exactly the copied prefix. -/
theorem clone_partial (m : EffectMap) (k : Nat) (hk : k ≤ numEffects) :
    EffInv ((List.range k).foldl (fun acc i => acc.setIdx i (m.getIdx i)) EffectMap.init) ∧
    ∀ j, ((List.range k).foldl (fun acc i => acc.setIdx i (m.getIdx i))
        EffectMap.init).effectValues.getD j 0 = if j < k then m.getIdx j else 0 := by
  induction k with
  | zero =>
    refine ⟨effInv_init, fun j => ?_⟩
    simp only [List.range_zero, List.foldl_nil, if_neg (Nat.not_lt_zero j)]
    show (List.replicate numEffects (0 : Int)).getD j 0 = 0
    rw [List.getD_eq_getElem?_getD]
    cases h : (List.replicate numEffects (0 : Int))[j]? with
    | none => rfl
    | some a =>
      have := List.getElem?_mem h
      simp only [List.eq_of_mem_replicate this]
      rfl
  | succ k ih =>
    obtain ⟨ih1, ih2⟩ := ih (Nat.le_of_succ_le hk)
    rw [List.range_succ, List.foldl_append, List.foldl_cons, List.foldl_nil]
    set acc := (List.range k).foldl (fun acc i => acc.setIdx i (m.getIdx i)) EffectMap.init
    have hkn : k < numEffects := hk
    refine ⟨ih1.setIdx hkn (m.getIdx k), fun j => ?_⟩
    have hlen : acc.effectValues.length = numEffects := ih1.1
    show (acc.effectValues.set k (m.getIdx k)).getD j 0 = _
    rw [List.getD_eq_getElem?_getD, List.getElem?_set]
    by_cases hjk : k = j
    · subst hjk
      rw [if_pos rfl, if_pos (hlen ▸ hkn), if_pos (Nat.lt_succ_self k)]
      rfl
    · rw [if_neg hjk, ← List.getD_eq_getElem?_getD, ih2 j]
      by_cases hlt : j < k
      · rw [if_pos hlt, if_pos (Nat.lt_succ_of_lt hlt)]
      · rw [if_neg hlt, if_neg (by omega)]

/-- `_clone` produces an independent map that satisfies the invariant, holds
the same registered values as its source, and (because the bitmask is
recomputed through the setters) the same bitmask. -/
theorem clone_spec {m : EffectMap} (h : EffInv m) :
    EffInv m.clone ∧ m.clone.effectValues = m.effectValues ∧
      m.clone.bitmask = m.bitmask ∧ m.clone.extra = [] := by
  obtain ⟨hinv, hvals⟩ := clone_partial m numEffects (Nat.le_refl _)
  unfold EffectMap.clone
  set c := (List.range numEffects).foldl
    (fun acc i => acc.setIdx i (m.getIdx i)) EffectMap.init with hc
  have hvals' : ∀ j, c.effectValues.getD j 0 = m.effectValues.getD j 0 := by
    intro j
    rw [hvals j]
    by_cases hj : j < numEffects
    · rw [if_pos hj]; rfl
    · rw [if_neg hj, List.getD_eq_getElem?_getD,
        List.getElem?_eq_none (by rw [h.1]; omega : m.effectValues.length ≤ j)]
      rfl
  have hlen : c.effectValues.length = m.effectValues.length := by
    rw [hinv.1, h.1]
  have hveq : c.effectValues = m.effectValues := by
    apply List.ext_getElem hlen
    intro j h1 h2
    have := hvals' j
    rwa [List.getD_eq_getElem?_getD, List.getD_eq_getElem?_getD,
      List.getElem?_eq_getElem h1, List.getElem?_eq_getElem h2] at this
  refine ⟨hinv, hveq, ?_, ?_⟩
  · apply Nat.eq_of_testBit_eq
    intro j
    by_cases hj : j < numEffects
    · have a := hinv.2.2 j hj
      have b := h.2.2 j hj
      rw [hveq] at a
      rw [Bool.eq_iff_iff, a, b]
    · rw [hinv.bitmask_testBit_high (by omega), h.bitmask_testBit_high (by omega)]
  · have hfold : ∀ (l : List Nat) (acc : EffectMap), acc.extra = [] →
        (l.foldl (fun acc i => acc.setIdx i (m.getIdx i)) acc).extra = [] := by
      intro l
      induction l with
      | nil => intro acc hacc; exact hacc
      | cons a l ih => intro acc hacc; exact ih _ hacc
    exact hfold _ _ rfl

/-- Every reachable `_EffectMap` state satisfies the bitmask-identity
invariant. -/
theorem reachable_effInv {m : EffectMap} (h : Reachable m) : EffInv m := by
  induction h with
  | init => exact effInv_init
  | set name v _ ih => exact ih.setName name v
  | clear _ ih => exact ih.clear
  | clone _ ih => exact (clone_spec ih).1

/-- **C2**: at every instant (i.e. in every state reachable through the
`_EffectMap` interface) the bitmask equals the union of the bit positions
whose named effect value is non-zero; the accessor setter for bit `i`
clears exactly bit `i` when given `0` and sets exactly bit `i` otherwise,
while storing the value in the same operation; and `clear` resets every
value and the bitmask to `0`. -/
theorem effect_bitmask_identity (m : EffectMap) (h : Reachable m) :
    (∀ j, m.bitmask.testBit j ↔ m.effectValues.getD j 0 ≠ 0) ∧
    (∀ i, i < numEffects → ∀ v : Int,
      ((m.setIdx i v).bitmask.testBit i ↔ v ≠ 0) ∧
      (∀ j, j ≠ i → (m.setIdx i v).bitmask.testBit j = m.bitmask.testBit j) ∧
      (m.setIdx i v).getIdx i = v) ∧
    m.clear.bitmask = 0 ∧ (∀ j, m.clear.getIdx j = 0) := by
  have hinv := reachable_effInv h
  refine ⟨?_, ?_, rfl, ?_⟩
  · intro j
    by_cases hj : j < numEffects
    · exact hinv.2.2 j hj
    · rw [hinv.bitmask_testBit_high (by omega)]
      have hnone : m.effectValues[j]? = none :=
        List.getElem?_eq_none (by rw [hinv.1]; omega)
      simp [List.getD_eq_getElem?_getD, hnone]
  · intro i hi v
    refine ⟨?_, ?_, ?_⟩
    · rw [setIdx_testBit hinv hi v i, if_pos rfl]
      simp
    · intro j hj
      rw [setIdx_testBit hinv hi v j, if_neg hj]
    · show (m.effectValues.set i v).getD i 0 = v
      rw [List.getD_eq_getElem?_getD, List.getElem?_set_self (hinv.1 ▸ hi)]
      rfl
  · intro j
    show (m.effectValues.map fun _ => (0 : Int)).getD j 0 = 0
    rw [List.getD_eq_getElem?_getD, List.getElem?_map]
    cases m.effectValues[j]? <;> rfl

/-- Witness for C2: a concrete reachable state (`init` then setting the
"whirl" effect to `5`) at which the invariant instance for bit `2` holds. -/
theorem effect_bitmask_identity_witness :
    Reachable (EffectMap.init.setName "whirl" 5) ∧
      ((EffectMap.init.setName "whirl" 5).bitmask.testBit 2 ↔
        (EffectMap.init.setName "whirl" 5).effectValues.getD 2 0 ≠ 0) :=
  ⟨Reachable.set "whirl" 5 Reachable.init,
    (effect_bitmask_identity _ (Reachable.set "whirl" 5 Reachable.init)).1 2⟩

theorem findIdx?_eq_none_of_not_mem {name : String} (h : name ∉ effectNames) :
    effectNames.findIdx? (fun s => s == name) = none := by
  rw [List.findIdx?_eq_none_iff]
  intro x hx
  rw [beq_eq_false_iff_ne]
  intro e
  exact h (e ▸ hx)

/-- **C4 counterexample**: the source defines no `ConfigurationError` and
never throws.  Assigning an unregistered effect name succeeds silently (the
value is observably stored as a plain property and the bitmask is
untouched), and reading an unregistered name yields `undefined` (`none`)
rather than failing — refuting the claim that such accesses "fail with a
ConfigurationError". -/
theorem effect_unknown_name_no_error :
    "volume" ∉ effectNames ∧
    (EffectMap.init.setName "volume" 5).getName "volume" = some 5 ∧
    (EffectMap.init.setName "volume" 5).bitmask = EffectMap.init.bitmask ∧
    EffectMap.init.getName "volume" = none := by decide

/-- **C4** (amended): getting or setting an effect whose name is not
registered never raises: the read yields `undefined` or a previously stored
plain property, the write only creates a plain property (registered values,
bitmask and the invariant are untouched), while `get`/`set` on registered
names resolve to the total accessor operations (so `get`, `set`, `clone`
and `clear` on registered names never raise either). -/
theorem effect_unknown_name_silent (m : EffectMap) (name : String) (v : Int)
    (h : name ∉ effectNames) :
    (m.setName name v).bitmask = m.bitmask ∧
    (m.setName name v).effectValues = m.effectValues ∧
    (m.setName name v).getName name = some v ∧
    (EffInv m → EffInv (m.setName name v)) ∧
    (∀ rn ∈ effectNames, ∃ i, i < numEffects ∧
      (∀ w : Int, m.setName rn w = m.setIdx i w) ∧ m.getName rn = some (m.getIdx i)) := by
  have hf := findIdx?_eq_none_of_not_mem h
  refine ⟨?_, ?_, ?_, ?_, ?_⟩
  · simp [EffectMap.setName, hf]
  · simp [EffectMap.setName, hf]
  · simp [EffectMap.setName, EffectMap.getName, hf]
  · intro hinv
    exact hinv.setName name v
  · intro rn hrn
    have hsome := List.findIdx?_eq_some_of_exists
      (p := fun s => s == rn) ⟨rn, hrn, by simp⟩
    refine ⟨effectNames.findIdx (fun s => s == rn),
      (List.findIdx?_eq_some_iff_findIdx_eq.mp hsome).1, ?_, ?_⟩
    · intro w
      simp [EffectMap.setName, hsome]
    · simp [EffectMap.getName, hsome]

/-- Witness for C4's amended theorem at the unregistered name "volume". -/
theorem effect_unknown_name_silent_witness :
    "volume" ∉ effectNames ∧
    ((EffectMap.init.setName "volume" 5).bitmask = EffectMap.init.bitmask ∧
    (EffectMap.init.setName "volume" 5).effectValues = EffectMap.init.effectValues ∧
    (EffectMap.init.setName "volume" 5).getName "volume" = some 5 ∧
    (EffInv EffectMap.init → EffInv (EffectMap.init.setName "volume" 5)) ∧
    (∀ rn ∈ effectNames, ∃ i, i < numEffects ∧
      (∀ w : Int, EffectMap.init.setName rn w = EffectMap.init.setIdx i w) ∧
      EffectMap.init.getName rn = some (EffectMap.init.getIdx i))) :=
  ⟨by decide, effect_unknown_name_silent EffectMap.init "volume" 5 (by decide)⟩

theorem jsRem_bounds (a : ℚ) {b : ℚ} (hb : 0 < b) :
    -b < jsRem a b ∧ jsRem a b < b := by
  have hba : b * (a / b) = a := mul_div_cancel₀ a (ne_of_gt hb)
  unfold jsRem jsTrunc
  by_cases hq : a / b < 0
  · rw [if_pos hq]
    have h1 : (⌈a / b⌉ : ℚ) < a / b + 1 := Int.ceil_lt_add_one _
    have h2 : a / b ≤ (⌈a / b⌉ : ℚ) := Int.le_ceil _
    constructor <;> nlinarith
  · rw [if_neg hq]
    push_neg at hq
    have h3 : (⌊a / b⌋ : ℚ) ≤ a / b := Int.floor_le _
    have h4 : a / b < ⌊a / b⌋ + 1 := Int.lt_floor_add_one _
    constructor <;> nlinarith

theorem jsRem_nonneg {a b : ℚ} (ha : 0 ≤ a) (hb : 0 < b) : 0 ≤ jsRem a b := by
  have hba : b * (a / b) = a := mul_div_cancel₀ a (ne_of_gt hb)
  have hq : ¬a / b < 0 := not_lt.mpr (div_nonneg ha hb.le)
  unfold jsRem jsTrunc
  rw [if_neg hq]
  have h3 : (⌊a / b⌋ : ℚ) ≤ a / b := Int.floor_le _
  nlinarith

/-- `normalizeDeg` lands in `[-180, 180)` and only shifts its argument by an
integer multiple of `360`. -/
theorem normalizeDeg_spec (d : ℚ) :
    -180 ≤ normalizeDeg d ∧ normalizeDeg d < 180 ∧
    ∃ k : ℤ, normalizeDeg d = d - 360 * k := by
  have h360 : (0 : ℚ) < 360 := by norm_num
  obtain ⟨hlb, hub⟩ := jsRem_bounds (d + 180) h360
  have h2 : 0 ≤ jsRem (d + 180) 360 + 360 := by linarith
  obtain ⟨-, hub2⟩ := jsRem_bounds (jsRem (d + 180) 360 + 360) h360
  have hnn := jsRem_nonneg h2 h360
  refine ⟨by unfold normalizeDeg; linarith, by unfold normalizeDeg; linarith,
    ⟨jsTrunc ((d + 180) / 360) + jsTrunc ((jsRem (d + 180) 360 + 360) / 360) - 1, ?_⟩⟩
  unfold normalizeDeg jsRem
  push_cast
  ring

/-- **C3 counterexample**: assigning direction `180` stores `-180`, not
`180`, and the stored value does not lie in the claimed half-open interval
`(-180, 180]`; assigning `-180` also stores `-180`, not the claimed `180`. -/
theorem direction_180_stores_neg180 :
    (setDirection sampleSprite 180).direction = -180 ∧
    (setDirection sampleSprite (-180)).direction = -180 ∧
    ¬(-180 < (setDirection sampleSprite 180).direction ∧
      (setDirection sampleSprite 180).direction ≤ 180) := by
  have h1 : (setDirection sampleSprite 180).direction = -180 := by
    show normalizeDeg 180 = -180
    norm_num [normalizeDeg, jsRem, jsTrunc]
  have h2 : (setDirection sampleSprite (-180)).direction = -180 := by
    show normalizeDeg (-180) = -180
    norm_num [normalizeDeg, jsRem, jsTrunc]
  refine ⟨h1, h2, ?_⟩
  rw [h1]
  intro h
  exact absurd h.1 (by norm_num)

/-- **C3** (amended): for every numeric input `d`, the stored direction
after `direction = d` lies in the half-open interval `[-180, 180)` and is
congruent to `d` modulo `360`; in particular both `180` and `-180` store
`-180`. -/
theorem direction_setter_normalizes (s : SpriteState) (d : ℚ) :
    (setDirection s d).direction = normalizeDeg d ∧
    -180 ≤ (setDirection s d).direction ∧ (setDirection s d).direction < 180 ∧
    ∃ k : ℤ, (setDirection s d).direction = d - 360 * k := by
  obtain ⟨h1, h2, h3⟩ := normalizeDeg_spec d
  exact ⟨rfl, h1, h2, h3⟩

theorem wrapClamp_one (n c : ℚ) : wrapClamp n 1 c = n - ⌊(n - 1) / c⌋ * c := by
  unfold wrapClamp
  rw [show c - 1 + 1 = c by ring]

theorem wrapClamp_add (n c : ℚ) (hc : c ≠ 0) :
    wrapClamp (n + c) 1 c = wrapClamp n 1 c := by
  rw [wrapClamp_one, wrapClamp_one]
  have : (n + c - 1) / c = (n - 1) / c + 1 := by
    field_simp
    ring
  rw [this, Int.floor_add_one]
  push_cast
  ring

theorem wrapClamp_sub (n c : ℚ) (hc : c ≠ 0) :
    wrapClamp (n - c) 1 c = wrapClamp n 1 c := by
  have := wrapClamp_add (n - c) c hc
  rw [show n - c + c = n by ring] at this
  exact this.symm

theorem wrapClamp_bounds (n : ℚ) {c : ℚ} (hc : 0 < c) :
    1 ≤ wrapClamp n 1 c ∧ wrapClamp n 1 c < c + 1 := by
  rw [wrapClamp_one]
  have hq : c * ((n - 1) / c) = n - 1 := mul_div_cancel₀ _ (ne_of_gt hc)
  have h1 : (⌊(n - 1) / c⌋ : ℚ) ≤ (n - 1) / c := Int.floor_le _
  have h2 : (n - 1) / c < ⌊(n - 1) / c⌋ + 1 := Int.lt_floor_add_one _
  constructor <;> nlinarith

theorem wrapClamp_congruent (n c : ℚ) :
    ∃ k : ℤ, wrapClamp n 1 c = n - k * c :=
  ⟨⌊(n - 1) / c⌋, wrapClamp_one n c⟩

/-- On integer inputs `wrapClamp n 1 c` is `1 + (n - 1) mod c`, hence never
exceeds `c`. -/
theorem wrapClamp_int_le (z : ℤ) {c : ℕ} (hc : 0 < c) :
    wrapClamp (z : ℚ) 1 (c : ℚ) ≤ (c : ℚ) := by
  rw [wrapClamp_one]
  have hcast : ((z : ℚ) - 1) / (c : ℚ) = ((z - 1 : ℤ) : ℚ) / ((c : ℕ) : ℚ) := by
    push_cast
    ring
  rw [hcast, Rat.floor_intCast_div_natCast]
  have hmod : z - (z - 1) / (c : ℤ) * c = 1 + (z - 1) % c := by
    rw [Int.emod_def]
    ring
  have hlt : (z - 1) % c < c :=
    Int.emod_lt_of_pos _ (by exact_mod_cast hc)
  have : (z : ℚ) - ((z - 1) / (c : ℤ) : ℤ) * c = ((z - (z - 1) / (c : ℤ) * c : ℤ) : ℚ) := by
    push_cast
    ring
  rw [this, hmod]
  have : (1 + (z - 1) % c : ℤ) ≤ (c : ℤ) := by omega
  exact_mod_cast this

/-- **C8 counterexample**: with five costumes, assigning the non-integer
costume number `5.5` stores `5.5`, which lies outside the claimed interval
`[1, 5]` (the source applies `wrapClamp` without rounding, and
`wrapClamp(5.5, 1, 5) = 5.5`). -/
theorem costume_number_fraction_escapes :
    (setCostumeNumber sampleSprite (11 / 2)).costumeNumber = 11 / 2 ∧
    ¬((setCostumeNumber sampleSprite (11 / 2)).costumeNumber ≤
      (sampleSprite.costumes.length : ℚ)) := by
  have h : (setCostumeNumber sampleSprite (11 / 2)).costumeNumber = 11 / 2 := by
    show wrapClamp (11 / 2) 1 ((5 : ℕ) : ℚ) = 11 / 2
    norm_num [wrapClamp]
  refine ⟨h, ?_⟩
  rw [h]
  show ¬(11 / 2 : ℚ) ≤ ((5 : ℕ) : ℚ)
  norm_num

/-- **C8** (amended): for every costume count `c > 0` and every number `n`,
assigning the costume number to `n`, `n + c` and `n - c` stores the same
value; the stored value re-enters range by modular wrap (it differs from
`n` by an integer multiple of `c`, never clamping to an endpoint) and lies
in `[1, c + 1)`; for every *integer* `n` it lies in `[1, c]`. -/
theorem costume_number_wrap (s : SpriteState) (n : ℚ)
    (hc : 0 < s.costumes.length) :
    (setCostumeNumber s (n + s.costumes.length)).costumeNumber =
      (setCostumeNumber s n).costumeNumber ∧
    (setCostumeNumber s (n - s.costumes.length)).costumeNumber =
      (setCostumeNumber s n).costumeNumber ∧
    (∃ k : ℤ, (setCostumeNumber s n).costumeNumber = n - k * s.costumes.length) ∧
    1 ≤ (setCostumeNumber s n).costumeNumber ∧
    (setCostumeNumber s n).costumeNumber < s.costumes.length + 1 ∧
    (∀ z : ℤ, n = (z : ℚ) →
      (setCostumeNumber s n).costumeNumber ≤ s.costumes.length) := by
  have hcq : (0 : ℚ) < (s.costumes.length : ℚ) := by exact_mod_cast hc
  obtain ⟨hb1, hb2⟩ := wrapClamp_bounds n hcq
  refine ⟨wrapClamp_add n _ (ne_of_gt hcq), wrapClamp_sub n _ (ne_of_gt hcq),
    wrapClamp_congruent n _, hb1, hb2, ?_⟩
  intro z hz
  show wrapClamp n 1 (s.costumes.length : ℚ) ≤ _
  rw [hz]
  exact wrapClamp_int_le z hc

/-- Witness for C8's amended theorem: five costumes, `n = 7` wraps to `2`,
and `7`, `12`, `2` all store the same value. -/
theorem costume_number_wrap_witness :
    0 < sampleSprite.costumes.length ∧
    ((setCostumeNumber sampleSprite (7 + sampleSprite.costumes.length)).costumeNumber =
      (setCostumeNumber sampleSprite 7).costumeNumber ∧
    (setCostumeNumber sampleSprite (7 - sampleSprite.costumes.length)).costumeNumber =
      (setCostumeNumber sampleSprite 7).costumeNumber ∧
    (∃ k : ℤ, (setCostumeNumber sampleSprite 7).costumeNumber =
      7 - k * sampleSprite.costumes.length) ∧
    1 ≤ (setCostumeNumber sampleSprite 7).costumeNumber ∧
    (setCostumeNumber sampleSprite 7).costumeNumber < sampleSprite.costumes.length + 1 ∧
    (∀ z : ℤ, (7 : ℚ) = (z : ℚ) →
      (setCostumeNumber sampleSprite 7).costumeNumber ≤ sampleSprite.costumes.length)) :=
  ⟨by decide, costume_number_wrap sampleSprite 7 (by decide)⟩

/-- **C10**: assigning `penColor` a non-`Color` value leaves the stored pen
color unchanged — the failure is only logged (a `console.error` message is
emitted, nothing is raised, the setter is total); assigning a `Color`
instance stores exactly that color (and logs nothing). -/
theorem pen_color_setter (s : SpriteState) (c : ColorV) (q : ℚ) (str : String) :
    (setPenColor s (.color c)).1.penColor = c ∧
    (setPenColor s (.color c)).2 = [] ∧
    (setPenColor s (.num q)).1 = s ∧
    (setPenColor s (.num q)).2 ≠ [] ∧
    (setPenColor s (.str str)).1 = s ∧
    (setPenColor s (.str str)).2 ≠ [] :=
  ⟨rfl, rfl, rfl, by simp [setPenColor], rfl, by simp [setPenColor]⟩

/-- **C9 counterexample**: from `(0,0)` with direction `90` (which in
Scratch convention faces *right*, not up), `move(10)` lands exactly at
`(10, 0)` — ten full units away from the claimed `(0, 10)` in each
coordinate, far beyond any floating-point tolerance. -/
theorem move_dir90_goes_right :
    (move ⟨0, 0, 90⟩ 10).x = 10 ∧ (move ⟨0, 0, 90⟩ 10).y = 0 ∧
    ¬(|(move ⟨0, 0, 90⟩ 10).x - 0| ≤ 1 ∧ |(move ⟨0, 0, 90⟩ 10).y - 10| ≤ 1) := by
  have hrad : scratchToRad 90 = 0 := by
    unfold scratchToRad scratchToDeg degToRad
    norm_num
  have hmv : move ⟨0, 0, 90⟩ 10 = ⟨10, 0, 90⟩ := by
    unfold move gotoR
    simp only [hrad, Real.cos_zero, Real.sin_zero]
    norm_num
  rw [hmv]
  norm_num

/-- **C9** (amended): from `(0,0)` with direction `0` (scratch-facing up),
`move(10)` lands exactly at `(0, 10)` (the embedding is exact, so "within
floating-point tolerance" is satisfied with error zero). -/
theorem move_dir0_goes_up :
    (move ⟨0, 0, 0⟩ 10).x = 0 ∧ (move ⟨0, 0, 0⟩ 10).y = 10 := by
  have hrad : scratchToRad 0 = Real.pi / 2 := by
    unfold scratchToRad scratchToDeg degToRad
    ring
  have hmv : move ⟨0, 0, 0⟩ 10 = ⟨0, 10, 0⟩ := by
    unfold move gotoR
    simp only [hrad, Real.cos_pi_div_two, Real.sin_pi_div_two]
    norm_num
  rw [hmv]
  exact ⟨rfl, rfl⟩

/-- **C1**, evaluation at the failing input: `glide(1, 10, 0)` from
`(0, 0)` started at `t0 = 0` and resumed at `500`, `1500` and `1600` ms.
Resumption 2 is the first at which the elapsed time reaches 1 s, so the
claim says the task completes there with position exactly `(10, 0)`; the
code instead computes the unclamped fraction `t = 1.5` there, moves the
sprite to `(15, 0)`, and only completes on resumption 3 — still at
`(15, 0)`. -/
theorem glide_overshoot_eval :
    glide 1 10 0 0 0 0 [500, 1500, 1600] = ⟨(15, 0), some 3⟩ ∧
    (glide 1 10 0 0 0 0 [500, 1500, 1600]).pos ≠ (10, 0) ∧
    (glide 1 10 0 0 0 0 [500, 1500, 1600]).doneAt ≠ some 2 := by
  have h : glide 1 10 0 0 0 0 [500, 1500, 1600] = ⟨(15, 0), some 3⟩ := by
    norm_num [glide, glideSteps, interpolate]
  refine ⟨h, ?_, ?_⟩ <;> rw [h] <;> simp

theorem wf_parent_lt {w : World} (hwf : wfParents w = true) {i : Nat} {e : Entity}
    (he : w.entities[i]? = some e) {p : Nat} (hp : e.parent = some p) : p < i := by
  have hi : i < w.entities.length := by
    by_contra h
    rw [List.getElem?_eq_none (by omega)] at he
    exact Option.noConfusion he
  have hall := List.all_eq_true.mp hwf i (List.mem_range.mpr hi)
  rw [he] at hall
  have hall' : (match e.parent with
    | some p => decide (p < i)
    | none => true) = true := hall
  rw [hp] at hall'
  exact of_decide_eq_true hall'

theorem rootFrom_spec {w : World} (hwf : wfParents w = true) :
    ∀ fuel i, i < w.entities.length → i < fuel →
      parentOf w (rootFrom w fuel i) = none ∧
      Reaches w i (rootFrom w fuel i) ∧
      rootFrom w fuel i < w.entities.length := by
  intro fuel
  induction fuel with
  | zero => intro i _ h0; omega
  | succ fuel ih =>
    intro i hi hfi
    cases hp : parentOf w i with
    | none =>
      have hr : rootFrom w (fuel + 1) i = i := by
        simp [rootFrom, hp]
      rw [hr]
      exact ⟨hp, Reaches.refl i, hi⟩
    | some p =>
      have hplt : p < i := by
        unfold parentOf at hp
        cases he : w.entities[i]? with
        | none => rw [he] at hp; exact Option.noConfusion hp
        | some e =>
          rw [he] at hp
          exact wf_parent_lt hwf he hp
      obtain ⟨h1, h2, h3⟩ := ih p (by omega) (by omega)
      have hr : rootFrom w (fuel + 1) i = rootFrom w fuel p := by
        simp [rootFrom, hp]
      rw [hr]
      exact ⟨h1, Reaches.step hp h2, h3⟩

theorem rootOf_spec {w : World} (hwf : wfParents w = true) {i : Nat}
    (hi : i < w.entities.length) :
    parentOf w (rootOf w i) = none ∧ Reaches w i (rootOf w i) ∧
      rootOf w i < w.entities.length :=
  rootFrom_spec hwf (i + 1) i hi (Nat.lt_succ_self i)

theorem getElem?_some_lt {α : Type} {l : List α} {i : Nat} {a : α}
    (h : l[i]? = some a) : i < l.length :=
  (List.getElem?_eq_some_iff.mp h).1

theorem length_modifyEntity (l : List Entity) (i : Nat) (f : Entity → Entity) :
    (modifyEntity l i f).length = l.length := by
  unfold modifyEntity
  cases l[i]? <;> simp

theorem modifyEntity_getElem_self {l : List Entity} {i : Nat} (f : Entity → Entity)
    {e : Entity} (he : l[i]? = some e) : (modifyEntity l i f)[i]? = some (f e) := by
  unfold modifyEntity
  rw [he]
  exact List.getElem?_set_self (getElem?_some_lt he)

theorem modifyEntity_getElem_ne (l : List Entity) (i : Nat) (f : Entity → Entity)
    {j : Nat} (hij : j ≠ i) : (modifyEntity l i f)[j]? = l[j]? := by
  unfold modifyEntity
  cases l[i]? with
  | none => rfl
  | some e => exact List.getElem?_set_ne (fun h => hij h.symm)

/-- Unfolding of `createClone` at a live entity. -/
theorem createClone_eq (w : World) (i : Nat) (e : Entity)
    (he : w.entities[i]? = some e) :
    createClone w i =
      { entities :=
          (modifyEntity w.entities i fun x =>
            { x with clones := x.clones ++ [w.entities.length] }) ++
          [{ parent := some i, clones := [],
             chain := EffectChainT.cloneOf
               (match w.entities[rootOf w i]? with
                | some r => r.chain
                | none => e.chain),
             effects := e.effects.clone, vars := e.vars, triggers := e.triggers }],
        runningTriggers := w.runningTriggers ++
          ((e.triggers.filter fun t => t.kind == "CLONE_START").map
            fun t => { trigger := t, target := w.entities.length }) } := by
  unfold createClone
  rw [he]

/-- Unfolding of `deleteThisClone` at a clone (an entity with a parent). -/
theorem deleteThisClone_eq (w : World) (i : Nat) (e : Entity) (p : Nat)
    (he : w.entities[i]? = some e) (hp : e.parent = some p) :
    deleteThisClone w i =
      { entities := modifyEntity w.entities p fun pe =>
          { pe with clones := pe.clones.filter fun c => c != i },
        runningTriggers := w.runningTriggers.filter fun t => t.target != i } := by
  unfold deleteThisClone
  rw [he]
  simp only [hp]

/-- **C6**: for every live entity `i` (a clone of a clone to any depth
included), `createClone` gives the new clone an effect chain cloned from
the *root* entity's chain — the ancestor reached by following `parent`
links until none remains, not the immediate parent — and afterwards the new
clone's parent is `i` and the clone is a member of `i`'s clones list. -/
theorem clone_inherits_root_chain (w : World) (i : Nat) (e : Entity)
    (hwf : wfParents w = true) (he : w.entities[i]? = some e) :
    ∃ c re,
      (createClone w i).entities[w.entities.length]? = some c ∧
      w.entities[rootOf w i]? = some re ∧
      re.parent = none ∧
      Reaches w i (rootOf w i) ∧
      c.chain = EffectChainT.cloneOf re.chain ∧
      c.parent = some i ∧
      ∃ pe, (createClone w i).entities[i]? = some pe ∧
        w.entities.length ∈ pe.clones := by
  have hi : i < w.entities.length := getElem?_some_lt he
  obtain ⟨hroot_none, hreach, hrlt⟩ := rootOf_spec hwf hi
  obtain ⟨re, hre⟩ : ∃ re, w.entities[rootOf w i]? = some re :=
    ⟨_, List.getElem?_eq_getElem hrlt⟩
  have hre_parent : re.parent = none := by
    unfold parentOf at hroot_none
    rw [hre] at hroot_none
    exact hroot_none
  have hkey := createClone_eq w i e he
  have hlen : (modifyEntity w.entities i fun x =>
      { x with clones := x.clones ++ [w.entities.length] }).length =
      w.entities.length := length_modifyEntity _ _ _
  have hmatch : (match w.entities[rootOf w i]? with
      | some r => r.chain
      | none => e.chain) = re.chain := by
    rw [hre]
  rw [hmatch] at hkey
  refine ⟨{ parent := some i, clones := [],
            chain := EffectChainT.cloneOf re.chain, effects := e.effects.clone,
            vars := e.vars, triggers := e.triggers },
      re, ?_, hre, hre_parent, hreach, rfl, rfl, ?_⟩
  · rw [hkey]
    show (_ ++ [_])[w.entities.length]? = _
    rw [List.getElem?_append_right (le_of_eq hlen), hlen, Nat.sub_self]
    rfl
  · refine ⟨{ e with clones := e.clones ++ [w.entities.length] }, ?_, ?_⟩
    · rw [hkey]
      show (_ ++ [_])[i]? = _
      rw [List.getElem?_append_left (by rw [hlen]; exact hi)]
      exact modifyEntity_getElem_self _ he
    · exact List.mem_append_right _ (List.mem_singleton.mpr rfl)

/-- **C7**: immediately after `createClone`, the clone's effect map holds
the same values and the same bitmask as the origin's, and its variables the
same entries — but in independent storage: mutating any effect or variable
of the clone leaves the origin's entity state (effect values, bitmask and
variables alike) untouched, and vice versa. -/
theorem clone_state_independent (w : World) (i : Nat) (e : Entity)
    (he : w.entities[i]? = some e) (hinv : EffInv e.effects) :
    ∃ c, (createClone w i).entities[w.entities.length]? = some c ∧
      c.effects.effectValues = e.effects.effectValues ∧
      c.effects.bitmask = e.effects.bitmask ∧
      c.vars = e.vars ∧
      (∀ name (v : Int),
        (setEffectOf (createClone w i) w.entities.length name v).entities[i]? =
          (createClone w i).entities[i]?) ∧
      (∀ name (v : ℚ),
        (setVarOf (createClone w i) w.entities.length name v).entities[i]? =
          (createClone w i).entities[i]?) ∧
      (∀ name (v : Int),
        (setEffectOf (createClone w i) i name v).entities[w.entities.length]? =
          (createClone w i).entities[w.entities.length]?) ∧
      (∀ name (v : ℚ),
        (setVarOf (createClone w i) i name v).entities[w.entities.length]? =
          (createClone w i).entities[w.entities.length]?) := by
  have hi : i < w.entities.length := getElem?_some_lt he
  have hne : w.entities.length ≠ i := by omega
  have hkey := createClone_eq w i e he
  have hlen : (modifyEntity w.entities i fun x =>
      { x with clones := x.clones ++ [w.entities.length] }).length =
      w.entities.length := length_modifyEntity _ _ _
  obtain ⟨hcv, hcb⟩ := (clone_spec hinv).2
  refine ⟨{ parent := some i, clones := [],
            chain := EffectChainT.cloneOf
              (match w.entities[rootOf w i]? with
               | some r => r.chain
               | none => e.chain),
            effects := e.effects.clone, vars := e.vars, triggers := e.triggers },
      ?_, hcv, hcb.1, rfl, ?_, ?_, ?_, ?_⟩
  · rw [hkey]
    show (_ ++ [_])[w.entities.length]? = _
    rw [List.getElem?_append_right (le_of_eq hlen), hlen, Nat.sub_self]
    rfl
  · intro name v
    exact modifyEntity_getElem_ne _ _ _ (by omega)
  · intro name v
    exact modifyEntity_getElem_ne _ _ _ (by omega)
  · intro name v
    exact modifyEntity_getElem_ne _ _ _ hne
  · intro name v
    exact modifyEntity_getElem_ne _ _ _ hne

/-- **C5**: `deleteThisClone()` is a no-op (whole world unchanged) when the
entity has no parent; otherwise it removes the entity from its parent's
clones list (exactly — other entries and other entities survive) and
removes every scheduled task whose target is that entity (tasks with other
targets survive), so no entry of `runningTriggers` — the pool the scheduler
resumes from — targets the deleted clone any more. -/
theorem delete_this_clone_spec (w : World) (i : Nat) :
    ((w.entities[i]?).bind Entity.parent = none → deleteThisClone w i = w) ∧
    (∀ e p, w.entities[i]? = some e → e.parent = some p →
      (∀ t ∈ (deleteThisClone w i).runningTriggers, t.target ≠ i) ∧
      (∀ t ∈ w.runningTriggers, t.target ≠ i →
        t ∈ (deleteThisClone w i).runningTriggers) ∧
      (∀ pe', (deleteThisClone w i).entities[p]? = some pe' →
        i ∉ pe'.clones ∧
        ∃ pe, w.entities[p]? = some pe ∧
          pe'.clones = pe.clones.filter fun c => c != i) ∧
      (∀ j, j ≠ p → (deleteThisClone w i).entities[j]? = w.entities[j]?) ∧
      i ∉ (deleteThisClone w i).runningTriggers.map Task.target) := by
  constructor
  · intro hnone
    unfold deleteThisClone
    cases he : w.entities[i]? with
    | none => rfl
    | some e =>
      rw [he] at hnone
      have hnone' : e.parent = none := hnone
      simp only [hnone']
  · intro e p he hp
    have hkey := deleteThisClone_eq w i e p he hp
    have htask : ∀ t ∈ (deleteThisClone w i).runningTriggers, t.target ≠ i := by
      intro t ht
      rw [hkey] at ht
      have := List.mem_filter.mp ht
      exact bne_iff_ne.mp this.2
    refine ⟨htask, ?_, ?_, ?_, ?_⟩
    · intro t ht hne
      rw [hkey]
      exact List.mem_filter.mpr ⟨ht, bne_iff_ne.mpr hne⟩
    · intro pe' hpe'
      rw [hkey] at hpe'
      cases hpd : w.entities[p]? with
      | none =>
        rw [show (modifyEntity w.entities p fun pe =>
          { pe with clones := pe.clones.filter fun c => c != i }) = w.entities by
            unfold modifyEntity; rw [hpd]] at hpe'
        rw [hpd] at hpe'
        exact Option.noConfusion hpe'
      | some pe =>
        rw [modifyEntity_getElem_self _ hpd] at hpe'
        have hpe'' : pe' = { pe with clones := pe.clones.filter fun c => c != i } :=
          (Option.some.inj hpe').symm
      -- membership: i survives the filter only if (i != i) = true, impossible
        refine ⟨?_, pe, rfl, by rw [hpe'']⟩
        rw [hpe'']
        intro hmem
        have := (List.mem_filter.mp hmem).2
        simp at this
    · intro j hj
      rw [hkey]
      exact modifyEntity_getElem_ne _ _ _ hj
    · intro hmem
      obtain ⟨t, ht, htt⟩ := List.mem_map.mp hmem
      exact htask t ht htt

/-- Witness for C5: deleting the clone at index 2 of the sample world. -/
theorem delete_this_clone_witness :
    sampleWorld.entities[2]? = some sampleE2 ∧ sampleE2.parent = some 1 ∧
    ((∀ t ∈ (deleteThisClone sampleWorld 2).runningTriggers, t.target ≠ 2) ∧
      (∀ t ∈ sampleWorld.runningTriggers, t.target ≠ 2 →
        t ∈ (deleteThisClone sampleWorld 2).runningTriggers) ∧
      (∀ pe', (deleteThisClone sampleWorld 2).entities[1]? = some pe' →
        2 ∉ pe'.clones ∧
        ∃ pe, sampleWorld.entities[1]? = some pe ∧
          pe'.clones = pe.clones.filter fun c => c != 2) ∧
      (∀ j, j ≠ 1 →
        (deleteThisClone sampleWorld 2).entities[j]? = sampleWorld.entities[j]?) ∧
      2 ∉ (deleteThisClone sampleWorld 2).runningTriggers.map Task.target) :=
  ⟨rfl, rfl, (delete_this_clone_spec sampleWorld 2).2 sampleE2 1 rfl rfl⟩

/-- Witness for C6: cloning the clone-of-a-clone at index 2; its chain is
cloned from the root entity 0, not from its immediate parent 1. -/
theorem clone_inherits_root_chain_witness :
    wfParents sampleWorld = true ∧ sampleWorld.entities[2]? = some sampleE2 ∧
    (∃ c re,
      (createClone sampleWorld 2).entities[sampleWorld.entities.length]? = some c ∧
      sampleWorld.entities[rootOf sampleWorld 2]? = some re ∧
      re.parent = none ∧
      Reaches sampleWorld 2 (rootOf sampleWorld 2) ∧
      c.chain = EffectChainT.cloneOf re.chain ∧
      c.parent = some 2 ∧
      ∃ pe, (createClone sampleWorld 2).entities[2]? = some pe ∧
        sampleWorld.entities.length ∈ pe.clones) :=
  ⟨by decide, rfl, clone_inherits_root_chain sampleWorld 2 sampleE2 (by decide) rfl⟩

/-- Witness for C7: cloning entity 2 of the sample world; the clone starts
with the origin's effect values, bitmask and variables, in storage that
mutations of either side do not share. -/
theorem clone_state_independent_witness :
    sampleWorld.entities[2]? = some sampleE2 ∧ EffInv sampleE2.effects ∧
    (∃ c, (createClone sampleWorld 2).entities[sampleWorld.entities.length]? = some c ∧
      c.effects.effectValues = sampleE2.effects.effectValues ∧
      c.effects.bitmask = sampleE2.effects.bitmask ∧
      c.vars = sampleE2.vars ∧
      (∀ name (v : Int),
        (setEffectOf (createClone sampleWorld 2) sampleWorld.entities.length name v).entities[2]? =
          (createClone sampleWorld 2).entities[2]?) ∧
      (∀ name (v : ℚ),
        (setVarOf (createClone sampleWorld 2) sampleWorld.entities.length name v).entities[2]? =
          (createClone sampleWorld 2).entities[2]?) ∧
      (∀ name (v : Int),
        (setEffectOf (createClone sampleWorld 2) 2 name v).entities[sampleWorld.entities.length]? =
          (createClone sampleWorld 2).entities[sampleWorld.entities.length]?) ∧
      (∀ name (v : ℚ),
        (setVarOf (createClone sampleWorld 2) 2 name v).entities[sampleWorld.entities.length]? =
          (createClone sampleWorld 2).entities[sampleWorld.entities.length]?)) :=
  ⟨rfl, by decide, clone_state_independent sampleWorld 2 sampleE2 rfl (by decide)⟩

end Leopard
